import Mathlib

/-!
Verification development for the PythonAssetStore repository.

The Python sources are shallowly embedded: Python dicts become
insertion-ordered association lists, classes become structures,
methods become functions, raised exceptions become `Except` errors,
and `datetime.now()` becomes an explicit `now : Nat` argument.
Each definition is a direct port of the function of the same name in
`src/lib/...`; the file the port comes from is named above it.
-/

set_option maxHeartbeats 1000000

/-! ## Python dict model

A Python `dict` is insertion ordered with unique keys.  We model it as an
association list; `dset` overwrites in place (keeping the position of an
existing key) and appends new keys at the end, exactly as `d[k] = v` does.
`dupdate` is `d.update(other)`. -/

def dget {κ α : Type} [DecidableEq κ] (d : List (κ × α)) (k : κ) : Option α :=
  match d with
  | [] => none
  | (k2, v) :: rest => if k2 = k then some v else dget rest k

def dgetD {κ α : Type} [DecidableEq κ] (d : List (κ × α)) (k : κ) (dflt : α) : α :=
  (dget d k).getD dflt

def dmem {κ α : Type} [DecidableEq κ] (d : List (κ × α)) (k : κ) : Bool :=
  (dget d k).isSome

def dset {κ α : Type} [DecidableEq κ] (d : List (κ × α)) (k : κ) (v : α) : List (κ × α) :=
  match d with
  | [] => [(k, v)]
  | (k2, v2) :: rest => if k2 = k then (k2, v) :: rest else (k2, v2) :: dset rest k v

def dupdate {κ α : Type} [DecidableEq κ] (d other : List (κ × α)) : List (κ × α) :=
  other.foldl (fun acc kv => dset acc kv.1 kv.2) d

/-- Python renders `None` inside an f-string as the text `None`; this helper
mirrors `f"...{self.group_name}"` for an optional name. -/
def pyStr (o : Option String) : String :=
  match o with
  | some s => s
  | none => "None"

/-! ## `src/lib/store/user_registry.py` -/

/-- An `Entity` after `init_credentials` has run: `credentials` is the merged
view of its core credentials plus the credentials of its layers (children
override parents).  `inherits_from` is the `_inherits_from` list. -/
structure Entity where
  name : String
  inherits_from : List String
  credentials : List (String × Bool)
deriving Repr, DecidableEq

/-- `UserRegistry.entities`: name → Entity, insertion ordered. -/
structure UserRegistry where
  entities : List (String × Entity)
deriving Repr, DecidableEq

def UserRegistry.get_entity (reg : UserRegistry) (name : String) : Option Entity :=
  dget reg.entities name

/-- `Entity.has_credential`: looks up `f"{right}:{self.name}"` in the merged
credential view, defaulting to `False`. -/
def Entity.has_credential (e : Entity) (right : String) : Bool :=
  dgetD e.credentials (right ++ ":" ++ e.name) false

/-- `UserRegistry.has_right`: `False` for unknown entities, else
`entity.has_credential(right)`. -/
def UserRegistry.has_right (reg : UserRegistry) (name right : String) : Bool :=
  match reg.get_entity name with
  | none => false
  | some e => e.has_credential right

/-- `Entity.inherits_from(registry, other)`: direct membership in
`_inherits_from`, else recursion through the parents.  The Python code has
no recursion bound (callers must keep the registry acyclic); we carry an
explicit `fuel` which the wrapper below instantiates with the number of
entities, enough for every simple inheritance path. -/
def Entity.inheritsFromFuel (reg : UserRegistry) : Nat → Entity → String → Bool
  | 0, _, _ => false
  | fuel + 1, e, other =>
    if other ∈ e.inherits_from then true
    else e.inherits_from.any (fun parentName =>
      match reg.get_entity parentName with
      | some parent => Entity.inheritsFromFuel reg fuel parent other
      | none => false)

def Entity.inheritsFrom (e : Entity) (reg : UserRegistry) (other : String) : Bool :=
  Entity.inheritsFromFuel reg reg.entities.length e other

/-! ## `src/lib/store/unix_permissions.py` -/

structure UnixPermissions where
  user_name : String
  group_name : Option String
  permissions : List (String × Bool)
deriving Repr, DecidableEq

/-- `_decode_int_permissions`: one octal digit to (r, w, x). -/
def UnixPermissions.decode_int_permissions (octValue : Nat) : Bool × Bool × Bool :=
  (octValue &&& 4 != 0, octValue &&& 2 != 0, octValue &&& 1 != 0)

/-- `_set_user_permissions` -/
def UnixPermissions.set_user_permissions (p : UnixPermissions) (r w x : Bool) :
    UnixPermissions :=
  let perms := dset p.permissions ("r:" ++ p.user_name) r
  let perms := dset perms ("w:" ++ p.user_name) w
  let perms := dset perms ("x:" ++ p.user_name) x
  { p with permissions := perms }

/-- `_set_group_permissions` (guarded by `group_name is not None`). -/
def UnixPermissions.set_group_permissions (p : UnixPermissions) (r w x : Bool) :
    UnixPermissions :=
  match p.group_name with
  | none => p
  | some g =>
    let perms := dset p.permissions ("r:" ++ g) r
    let perms := dset perms ("w:" ++ g) w
    let perms := dset perms ("x:" ++ g) x
    { p with permissions := perms }

/-- `chmod(mode)` for an integer mode (octal string modes convert to the same
integer; the mapping variant is `chmodMap` below). -/
def UnixPermissions.chmod (p : UnixPermissions) (mode : Nat) : UnixPermissions :=
  let specialDigit := (mode >>> 9) &&& 7
  let userDigit := (mode >>> 6) &&& 7
  let groupDigit := (mode >>> 3) &&& 7
  let othersDigit := mode &&& 7
  let sst := UnixPermissions.decode_int_permissions specialDigit
  let u := UnixPermissions.decode_int_permissions userDigit
  let g := UnixPermissions.decode_int_permissions groupDigit
  let o := UnixPermissions.decode_int_permissions othersDigit
  let p := p.set_user_permissions u.1 u.2.1 u.2.2
  let p :=
    match p.group_name with
    | some _ => p.set_group_permissions g.1 g.2.1 g.2.2
    | none => p
  let perms := dset p.permissions "r:*" o.1
  let perms := dset perms "w:*" o.2.1
  let perms := dset perms "x:*" o.2.2
  let perms :=
    if specialDigit != 0 then dset (dset perms "s:*" sst.1) "t:*" sst.2.2
    else perms
  { p with permissions := perms }

/-- `chmod(mode)` when `mode` is a `MutableMapping`: the permission map is
replaced wholesale (this is the branch the persistence decoder takes). -/
def UnixPermissions.chmodMap (p : UnixPermissions) (m : List (String × Bool)) :
    UnixPermissions :=
  { p with permissions := m }

/-- The `mode` constructor argument: an int, or (from the decoder) the raw
permission mapping.  The octal-string form converts to the int form. -/
inductive ModeArg where
  | int (n : Nat)
  | map (m : List (String × Bool))
deriving Repr, DecidableEq

/-- `UnixPermissions.__init__(user, group, mode)`. -/
def UnixPermissions.init (user : String) (group : Option String)
    (mode : Option ModeArg) : UnixPermissions :=
  let base : UnixPermissions := { user_name := user, group_name := group, permissions := [] }
  match mode with
  | some (ModeArg.int n) => base.chmod n
  | some (ModeArg.map m) => base.chmodMap m
  | none =>
    let perms := [("r:" ++ user, true), ("w:" ++ user, true), ("x:" ++ user, true)]
    let perms :=
      match group with
      | some g =>
        perms ++ [("r:" ++ g, true), ("w:" ++ g, true), ("x:" ++ g, true)]
      | none => perms
    { base with permissions := perms }

/-- `ctor_parameter`: `{'user': ..., 'group': ..., 'mode': self.permissions}` —
the serialized mode is the whole permission mapping. -/
structure PermissionsCtorParameter where
  user : String
  group : Option String
  mode : List (String × Bool)
deriving Repr, DecidableEq

def UnixPermissions.ctor_parameter (p : UnixPermissions) : PermissionsCtorParameter :=
  { user := p.user_name, group := p.group_name, mode := p.permissions }

/-- The persistence decoder calls the constructor with the stored
`ctor_parameter`, so `mode` arrives as a mapping and `chmod` installs it
unchanged (`src/lib/persistence.py`, `StdJSONSerializable.from_json`). -/
def UnixPermissions.from_ctor_parameter (c : PermissionsCtorParameter) : UnixPermissions :=
  UnixPermissions.init c.user c.group (some (ModeArg.map c.mode))

/-- `is_right_granted(user_registry, entity_name, right)`. -/
def UnixPermissions.is_right_granted (p : UnixPermissions) (reg : UserRegistry)
    (entity_name right : String) : Bool :=
  match reg.get_entity entity_name with
  | none => false
  | some entity =>
    if entity_name = p.user_name
        && dgetD p.permissions (right ++ ":" ++ p.user_name) false
        && reg.has_right p.user_name right then
      true
    else if dgetD p.permissions (right ++ ":" ++ pyStr p.group_name) false
        && entity.inheritsFrom reg (pyStr p.group_name)
        && reg.has_right (pyStr p.group_name) right then
      true
    else if reg.has_right "*" right && dgetD p.permissions (right ++ ":*") false then
      true
    else
      false

/-- `_flags_for(name)` inside `short_repr`: builds the three-character flag
string and counts how many of the three keys were present. -/
def UnixPermissions.flags_for (p : UnixPermissions) (name : String) : String × Nat :=
  ["r", "w", "x"].foldl
    (fun acc r =>
      let rightName := r ++ ":" ++ name
      match dget p.permissions rightName with
      | some b => (acc.1 ++ (if b then r else "-"), acc.2 + 1)
      | none => (acc.1 ++ "-", acc.2))
    ("", 0)

/-- `short_repr()` -/
def UnixPermissions.short_repr (p : UnixPermissions) : String :=
  let u := p.flags_for p.user_name
  let g := p.flags_for (pyStr p.group_name)
  let star := p.flags_for "*"
  let tested := u.2 + g.2 + star.2
  let flags := u.1 ++ g.1 ++ star.1
  let flags := if p.permissions.length > tested then flags ++ "+" else flags
  flags ++ " " ++ p.user_name ++ " " ++ pyStr p.group_name

/-! ## `src/lib/store/update_context.py` -/

/-- `UpdateContext`: we keep the identity stack (`push_identity` appends,
`get_user` reads the top = last element). -/
structure UpdateContext where
  user_registry : UserRegistry
  user : String
  group : String
  identity : List (String × String)
deriving Repr, DecidableEq

def UpdateContext.make (reg : UserRegistry) (user group : String) : UpdateContext :=
  { user_registry := reg, user := user, group := group, identity := [(user, group)] }

def UpdateContext.get_user (ctx : UpdateContext) : String :=
  (ctx.identity.getLastD (ctx.user, ctx.group)).1

def UpdateContext.get_group (ctx : UpdateContext) : String :=
  (ctx.identity.getLastD (ctx.user, ctx.group)).2

def UpdateContext.permission_granted (ctx : UpdateContext) (p : UnixPermissions)
    (right : String) : Bool :=
  p.is_right_granted ctx.user_registry ctx.get_user right

/-! ## `src/lib/path_op.py` — the `TreePath` path algebra

Python strings are modelled as `List Char` for the parsing functions; the
`String`-level wrappers sit below.  A path component is either a mapping key
or an integer index. -/

inductive CComp where
  | ckey (k : List Char)
  | cidx (n : Int)
deriving Repr, DecidableEq

inductive PathComp where
  | key (k : String)
  | idx (n : Int)
deriving Repr, DecidableEq

/-- Rendering of one decimal digit (`0`–`9`) to its character. -/
def charOfDigit (d : Nat) : Char := Char.ofNat (48 + d)

/-- The numeric value of a decimal digit character, else `none`. -/
def digitVal (c : Char) : Option Nat :=
  if 48 ≤ c.toNat && c.toNat ≤ 57 then some (c.toNat - 48) else none

/-- Decimal rendering of a natural number, most significant digit first.
The recursion divides by 10; the fuel (any bound above the digit count,
`n + 1` here) only makes the recursion structural and is never exhausted. -/
def natToCharsGo (fuel n : Nat) (acc : List Char) : List Char :=
  match fuel with
  | 0 => acc
  | fuel + 1 =>
    if n < 10 then charOfDigit n :: acc
    else natToCharsGo fuel (n / 10) (charOfDigit (n % 10) :: acc)

/-- Decimal rendering of a natural number, as Python `str` produces it. -/
def natToChars (n : Nat) : List Char :=
  natToCharsGo (n + 1) n []

/-- Decimal rendering of an integer, as Python `str` produces it. -/
def intToChars (i : Int) : List Char :=
  if i < 0 then '-' :: natToChars i.natAbs else natToChars i.toNat

def parseDigitsGo (acc : Nat) : List Char → Option Nat
  | [] => some acc
  | c :: rest =>
    match digitVal c with
    | some d => parseDigitsGo (10 * acc + d) rest
    | none => none

def parseDigits (s : List Char) : Option Nat :=
  if s.isEmpty then none else parseDigitsGo 0 s

/-- Python `int(s)` for a decimal literal with an optional sign.  (Python
additionally strips whitespace and accepts underscore separators; those
inputs never arise from rendered paths and are treated as errors here.) -/
def pyInt (s : List Char) : Except String Int :=
  match s with
  | [] => Except.error "invalid literal for int"
  | c :: rest =>
    if c = '-' then
      match parseDigits rest with
      | some n => Except.ok (-(n : Int))
      | none => Except.error "invalid literal for int"
    else if c = '+' then
      match parseDigits rest with
      | some n => Except.ok ((n : Int))
      | none => Except.error "invalid literal for int"
    else
      match parseDigits (c :: rest) with
      | some n => Except.ok ((n : Int))
      | none => Except.error "invalid literal for int"

/-- Python `str.split(sep)` for a one-character separator: `"".split` is
`[""]`, and every separator occurrence opens a new (possibly empty) part. -/
def pySplit (sep : Char) : List Char → List (List Char)
  | [] => [[]]
  | c :: rest =>
    if c = sep then [] :: pySplit sep rest
    else
      match pySplit sep rest with
      | [] => [[c]]
      | h :: t => (c :: h) :: t

/-- `TreePath._split_first_bracket`: split before the first `[`; when there
is none the second part is empty. -/
def splitFirstBracket : List Char → List Char × List Char
  | [] => ([], [])
  | c :: rest =>
    if c = '[' then ([], c :: rest)
    else
      let p := splitFirstBracket rest
      (c :: p.1, p.2)

/-- `s.find(']')` followed by the two slices `s[:end]` and `s[end+1:]`,
as `_extract_index` uses them; `none` when there is no `]`. -/
def splitAtRBracket : List Char → Option (List Char × List Char)
  | [] => none
  | c :: rest =>
    if c = ']' then some ([], rest)
    else
      match splitAtRBracket rest with
      | none => none
      | some p => some (c :: p.1, p.2)

/-- `TreePath._extract_index`: peel one `[<int>]` group off the front;
`idx_str` is `s[1:end]`, the remainder is `s[end+1:]`. -/
def extractIndex (s : List Char) : Except String (Int × List Char) :=
  match splitAtRBracket s with
  | none => Except.error "unmatched bracket in path"
  | some (before, after) =>
    match pyInt (before.drop 1) with
    | Except.ok i => Except.ok (i, after)
    | Except.error e => Except.error e

/-- The `while bracket_section:` loop of `_parse_path`: consume `[<int>]`
groups, appending an index step for each.  Each round strictly shortens the
remaining characters (everything up to and including the `]` goes), so fuel
`s.length + 1` (installed by `extractAllIdx`) is never exhausted; the fuel
only makes the recursion structural. -/
def extractAllIdxGo (fuel : Nat) (steps : List CComp) (s : List Char) :
    Except String (List CComp) :=
  match fuel with
  | 0 => Except.error "fuel exhausted"
  | fuel + 1 =>
    if s.isEmpty then Except.ok steps
    else
      match splitAtRBracket s with
      | none => Except.error "unmatched bracket in path"
      | some (before, after) =>
        match pyInt (before.drop 1) with
        | Except.error e => Except.error e
        | Except.ok i => extractAllIdxGo fuel (steps ++ [CComp.cidx i]) after

def extractAllIdx (steps : List CComp) (s : List Char) : Except String (List CComp) :=
  extractAllIdxGo (s.length + 1) steps s

/-- The per-part body of `_parse_path`: take the mapping key before the
first bracket (empty keys are an error), then consume the index groups. -/
def parsePart (steps : List CComp) (part : List Char) : Except String (List CComp) :=
  let p := splitFirstBracket part
  if p.1.isEmpty then Except.error "path components may not be empty"
  else extractAllIdx (steps ++ [CComp.ckey p.1]) p.2

/-- `TreePath._parse_path`: empty string parses to the empty path; otherwise
split on `.` and process each part. -/
def parsePathChars (s : List Char) : Except String (List CComp) :=
  if s.isEmpty then Except.ok []
  else (pySplit '.' s).foldlM parsePart []

/-- `TreePath.__str__` for the first component (`i = 0`: no leading dot). -/
def renderComp1 : CComp → List Char
  | CComp.ckey k => k
  | CComp.cidx n => '[' :: (intToChars n ++ [']'])

/-- `TreePath.__str__` for the later components: integers render as `[n]`
with no separator, keys are preceded by a dot. -/
def renderCompN : CComp → List Char
  | CComp.ckey k => '.' :: k
  | CComp.cidx n => '[' :: (intToChars n ++ [']'])

/-- `TreePath.__str__` over the component list. -/
def renderChars : List CComp → List Char
  | [] => []
  | c :: rest => renderComp1 c ++ (rest.map renderCompN).flatten

def compOfC : CComp → PathComp
  | CComp.ckey k => PathComp.key (String.mk k)
  | CComp.cidx n => PathComp.idx n

def cOfComp : PathComp → CComp
  | PathComp.key s => CComp.ckey s.data
  | PathComp.idx n => CComp.cidx n

/-- `TreePath(path)` for a string argument: parse into components. -/
def TreePath.parse (s : String) : Except String (List PathComp) :=
  (parsePathChars s.data).map (List.map compOfC)

/-- `str(tree_path)`. -/
def TreePath.render (p : List PathComp) : String :=
  String.mk (renderChars (p.map cOfComp))

/-! ## `src/lib/store/asset_store.py` — directory tree, traversal, store

A directory in the source is a dict whose empty-string key holds the
directory's own `UnixPermissions`; here the `dir` constructor carries that
entry as `perm` and the remaining children as `entries`.  `HardLink` nodes
(a shared view of another directory) are not needed by any claim and are
omitted. -/

inductive Node where
  | dir (perm : Option UnixPermissions) (entries : List (String × Node))
  | assetId (id : Int)
  | active (asset_id : Int) (perm : Option UnixPermissions)
  | symlink (path : String) (perm : Option UnixPermissions)
deriving Repr

/-- The store-level view of an asset record: its id, whether it is the
synthesized `Asset(ReadDir(), path=...)`, and its argument map (the slot
`_inner_get` receives extra path components). -/
inductive ArgV where
  | str (s : String)
  | comps (l : List PathComp)
deriving Repr, DecidableEq

structure SAsset where
  local_id : Int
  is_read_dir : Bool
  action_args : List (String × ArgV)
deriving Repr, DecidableEq

/-- The `default` argument of `acquire`: `None`, or an exception instance
(in which case `default_or_raise` raises it). -/
inductive DefaultArg where
  | noneArg
  | excArg (msg : String)
deriving Repr, DecidableEq

/-- What `acquire` hands back: an `Asset`, or Python `None`. -/
inductive PyAcquired where
  | asset (a : SAsset)
  | pyNone
deriving Repr, DecidableEq

/-- `lib/default.py`, `default_or_raise` (the augmenting message is dropped;
only whether the default is an exception matters). -/
def default_or_raise (d : DefaultArg) : Except String PyAcquired :=
  match d with
  | DefaultArg.noneArg => Except.ok PyAcquired.pyNone
  | DefaultArg.excArg m => Except.error m

structure AssetStore where
  asset_tree : Node
  asset_by_id_cache : List (Int × SAsset)
  storage : List (Int × SAsset)
  next_asset_id : Int

def AssetStore.allow_access_by_default : Bool := true

/-- `AssetStore._may_execute` -/
def AssetStore.may_execute (ctx : UpdateContext) (permissions : Option UnixPermissions) :
    Bool :=
  match permissions with
  | some p => ctx.permission_granted p "x"
  | none => AssetStore.allow_access_by_default

/-- `AssetStore._may_read_directory` -/
def AssetStore.may_read_directory (ctx : UpdateContext)
    (permissions : Option UnixPermissions) : Bool :=
  match permissions with
  | some p => ctx.permission_granted p "r"
  | none => AssetStore.allow_access_by_default

/-- The permissions of an existing directory entry, as `_may_write_directory`
computes them: a sub-directory contributes `existing_entry.get('', permissions)`
(the parent's permissions when it has none of its own), a permission provider
contributes `get_permissions()` (possibly `None`, on which the subsequent
`.user_name` access would raise), and any other entry raises `ValueError`. -/
def AssetStore.entry_permissions_for_write (entry : Node) (dirPerms : UnixPermissions) :
    Except String (Option UnixPermissions) :=
  match entry with
  | Node.dir perm _ => Except.ok (some (perm.getD dirPerms))
  | Node.active _ p => Except.ok p
  | Node.symlink _ p => Except.ok p
  | Node.assetId _ => Except.error "invalid directory entry"

/-- `AssetStore._may_write_directory`: write permission on the directory is
required; when the key already exists and the *registry* grants the right `t`
to the entity `*` for these permissions, only the owner of the existing entry
may overwrite it. -/
def AssetStore.may_write_directory (ctx : UpdateContext)
    (permissions : Option UnixPermissions) (node : List (String × Node))
    (key : String) : Except String Bool :=
  match permissions with
  | none => Except.ok AssetStore.allow_access_by_default
  | some perms =>
    if ! ctx.permission_granted perms "w" then Except.ok false
    else if dmem node key && perms.is_right_granted ctx.user_registry "*" "t" then
      match dget node key with
      | none => Except.ok true
      | some entry =>
        match AssetStore.entry_permissions_for_write entry perms with
        | Except.error e => Except.error e
        | Except.ok none => Except.error "AttributeError on None permissions"
        | Except.ok (some entryPerms) => Except.ok (ctx.get_user == entryPerms.user_name)
    else Except.ok true

/-- `AssetStore._get_node_permissions` -/
def AssetStore.get_node_permissions (n : Node) : Option UnixPermissions :=
  match n with
  | Node.dir perm _ => perm
  | Node.active _ p => p
  | Node.symlink _ p => p
  | Node.assetId _ => none

/-- The result quadruple of `_get_node`:
`node, current_path, node_permissions, error`. -/
structure GetNodeResult where
  node : Node
  node_path : List PathComp
  permissions : Option UnixPermissions
  error : Option String
deriving Repr

def effectivePermissions (cur last : Option UnixPermissions) : Option UnixPermissions :=
  match cur with
  | some p => some p
  | none => last

/-- A dict lookup `current.get(component)` where the key may be an integer
path component (never present in the string-keyed directory). -/
def dirEntryGet (entries : List (String × Node)) (comp : PathComp) : Option Node :=
  match comp with
  | PathComp.key s => dget entries s
  | PathComp.idx _ => none

/-- The traversal loop body of `AssetStore._get_node`. -/
def AssetStore.get_node_go (ctx : UpdateContext) :
    List PathComp → Node → List PathComp → Option UnixPermissions →
    Option UnixPermissions → GetNodeResult
  | [], current, path, curPerm, lastDirPerm =>
    { node := current, node_path := path,
      permissions := effectivePermissions curPerm lastDirPerm, error := none }
  | comp :: rest, current, path, curPerm, lastDirPerm =>
    match current with
    | Node.dir perm entries =>
      let path := path ++ [comp]
      if ! AssetStore.may_execute ctx (effectivePermissions curPerm lastDirPerm) then
        { node := Node.dir perm entries, node_path := path,
          permissions := effectivePermissions curPerm lastDirPerm,
          error := some "permission to enter is denied" }
      else
        match dirEntryGet entries comp with
        | none =>
          { node := Node.dir perm entries, node_path := path,
            permissions := effectivePermissions curPerm lastDirPerm,
            error := some "path not found" }
        | some entry =>
          let newPerm := AssetStore.get_node_permissions entry
          let lastDirPerm := if newPerm.isSome then newPerm else lastDirPerm
          AssetStore.get_node_go ctx rest entry path newPerm lastDirPerm
    | other =>
      { node := other, node_path := path,
        permissions := effectivePermissions curPerm lastDirPerm, error := none }

/-- `AssetStore._get_node`.  The root is always a directory whose permission
entry exists (invariant I2); a non-directory root is returned unchanged. -/
def AssetStore.get_node (store : AssetStore) (ctx : UpdateContext)
    (path : List PathComp) : GetNodeResult :=
  match store.asset_tree with
  | Node.dir rootPerm rootEntries =>
    if path.isEmpty then
      { node := Node.dir rootPerm rootEntries, node_path := [],
        permissions := rootPerm, error := none }
    else
      AssetStore.get_node_go ctx path (Node.dir rootPerm rootEntries) [] rootPerm rootPerm
  | other => { node := other, node_path := [], permissions := none, error := none }

/-- `AssetStore._acquire_by_id`: cache hit, else load from the storage
backend and cache; a backend failure goes through `default_or_raise`. -/
def AssetStore.acquire_by_id (store : AssetStore) (asset_id : Int)
    (default : DefaultArg) : Except String PyAcquired × AssetStore :=
  match dget store.asset_by_id_cache asset_id with
  | some a => (Except.ok (PyAcquired.asset a), store)
  | none =>
    match dget store.storage asset_id with
    | some a =>
      (Except.ok (PyAcquired.asset a),
       { store with asset_by_id_cache := dset store.asset_by_id_cache asset_id a })
    | none => (default_or_raise default, store)

/-- Modelled from the spec: `AssetById.get_asset` — the class `AssetById` is
imported from `lib.store.asset_reference` but its definition is missing from
the sources; §4.5 of the spec says an `ActiveAsset` without extra path
components loads the underlying asset (by id, through cache or backend). -/
def ActiveAsset.get_asset (store : AssetStore) (asset_id : Int) :
    Except String PyAcquired × AssetStore :=
  AssetStore.acquire_by_id store asset_id DefaultArg.noneArg

/-- `Asset(ReadDir(), path=str(path))`: the synthesized directory-listing
asset (`**kwargs` land in `action_args`; the id stays `-1`). -/
def readDirAsset (path : String) : SAsset :=
  { local_id := -1, is_read_dir := true, action_args := [("path", ArgV.str path)] }

/-- `AssetStore._valid_store_path`: no `[` in the rendered path. -/
def AssetStore.valid_store_path (s : String) : Bool :=
  ! s.data.any (fun c => c = '[')

/-- `AssetStore._acquire_by_path`.  Note the terminal dispatch: a mapping
yields a `ReadDir` asset, an integer loads by id, an `ActiveAsset` resolves
(with `_inner_get` when extra components remain) — and any other node, in
particular a `SymLink`, falls through the final `else: pass` and the
function returns Python `None`. -/
def AssetStore.acquire_by_path (store : AssetStore) (ctx : UpdateContext)
    (path : String) (default : DefaultArg) : Except String PyAcquired × AssetStore :=
  match TreePath.parse path with
  | Except.error e => (Except.error e, store)
  | Except.ok tree_path =>
    if ! AssetStore.valid_store_path (TreePath.render tree_path) then
      (default_or_raise default, store)
    else
      let r := store.get_node ctx tree_path
      match r.error with
      | some _ => (default_or_raise default, store)
      | none =>
        match r.node with
        | Node.dir _ _ => (Except.ok (PyAcquired.asset (readDirAsset path)), store)
        | Node.assetId id => AssetStore.acquire_by_id store id default
        | Node.active id aperm =>
          let has_inner_args := r.node_path.length < tree_path.length
          if ! has_inner_args then
            ActiveAsset.get_asset store id
          else
            let permissions :=
              match aperm with
              | some p => some p
              | none => r.permissions
            if ! AssetStore.may_execute ctx permissions then
              (Except.error "permission to execute denied", store)
            else
              match ActiveAsset.get_asset store id with
              | (Except.ok (PyAcquired.asset a), store2) =>
                let inner := ArgV.comps (tree_path.drop r.node_path.length)
                let cloned :=
                  { a with action_args := dset a.action_args "_inner_get" inner }
                (Except.ok (PyAcquired.asset cloned), store2)
              | other => other
        | Node.symlink _ _ => (Except.ok PyAcquired.pyNone, store)

/-- `AssetStore.acquire`: exactly one of `path` and `asset_id` must be truthy
(Python truthiness: the empty string and the integer 0 are falsy). -/
def AssetStore.acquire (store : AssetStore) (ctx : UpdateContext)
    (path : Option String) (asset_id : Option Int) (default : DefaultArg) :
    Except String PyAcquired × AssetStore :=
  let pathTruthy := match path with | some s => s != "" | none => false
  let idTruthy := match asset_id with | some i => i != 0 | none => false
  if pathTruthy && idTruthy then
    (Except.error "acquire() called with path and asset id - only one of them is allowed",
     store)
  else if pathTruthy then
    match path with
    | some s => AssetStore.acquire_by_path store ctx s default
    | none => (Except.ok PyAcquired.pyNone, store)
  else if idTruthy then
    match asset_id with
    | some i => AssetStore.acquire_by_id store i default
    | none => (Except.ok PyAcquired.pyNone, store)
  else
    (Except.error "acquire() called without path or asset id", store)

/-! ## `src/lib/call_result.py` and `src/lib/store/update_strategy.py`

Python values flowing through actions are modelled by `PVal`: a plain
(non-`CallResult`) object, a `ValidResult` instance, or an `ErrorResult`
instance (represented by its message). -/

inductive PVal where
  | obj (n : Nat)
  | strv (s : String)
  | validResult (v : PVal)
  | errorResult (msg : String)
deriving Repr, DecidableEq

/-- The `ValidResult` constructor: a `ValidResult` argument is unwrapped one
level (`self._value = value.get_result()` — "prevent instance nesting"). -/
def ValidResult.make (value : PVal) : PVal :=
  match value with
  | PVal.validResult inner => PVal.validResult inner
  | v => PVal.validResult v

/-- An action's behaviour, as `execute_action` exercises it.  The stages
receive `(asset, context, **args)` in the source; the asset and context are
absorbed into the function closures and only the argument map is passed
explicitly.  An `Except.error` models a raised exception; `post_execute`
returning `some v` models a truthy return value (which replaces the result). -/
structure UAction where
  pre_execute : List (String × PVal) → Except String Unit
  execute : List (String × PVal) → Except String PVal
  post_execute : List (String × PVal) → PVal → Except String (Option PVal)

/-- A dependency asset as the make strategy reads it after
`d.get_asset()`: the fields `update_required` consults. -/
structure DepAsset where
  phony : Bool
  build_result : Option PVal
  last_modification : Option Nat
  last_build : Option Nat
deriving Repr, DecidableEq

/-- `src/lib/store/asset.py`, class `Asset` (the fields the claims touch;
`meta['phony']` is surfaced as `meta_phony`). -/
structure UAsset where
  action : UAction
  action_args : List (String × PVal)
  permissions : Option UnixPermissions
  local_id : Int
  updater : String
  meta_phony : Bool
  build_result : Option PVal
  creation_date : Nat
  last_modification : Option Nat
  last_build : Option Nat
  dependencies : List DepAsset

/-- `Asset.set_result`: store the result; a non-`None` result bumps
`last_build` to `datetime.now()` (the explicit `now`). -/
def UAsset.set_result (a : UAsset) (result : Option PVal) (now : Nat) : UAsset :=
  { a with build_result := result,
           last_build := if result.isSome then some now else a.last_build }

/-- `Asset.clone`: a fresh asset with copied containers, the same action and
permissions, `last_modification = datetime.now()`. -/
def UAsset.clone (a : UAsset) (now : Nat) : UAsset :=
  { a with last_modification := some now }

/-- `update_strategy.execute_action`: each stage's exception is captured as
an `ErrorResult` stored on the asset; a truthy `post_execute` return replaces
the result; a final `ErrorResult` is stored as-is, anything else is wrapped
in a `ValidResult`. -/
def execute_action (asset : UAsset) (action : UAction)
    (action_args : List (String × PVal)) (now : Nat) : UAsset :=
  match action.pre_execute action_args with
  | Except.error e =>
    asset.set_result (some (PVal.errorResult ("in pre_execute(): " ++ e))) now
  | Except.ok _ =>
    match action.execute action_args with
    | Except.error e =>
      asset.set_result (some (PVal.errorResult ("action failed: " ++ e))) now
    | Except.ok result =>
      match action.post_execute action_args result with
      | Except.error e =>
        asset.set_result (some (PVal.errorResult ("in post_execute(): " ++ e))) now
      | Except.ok postResult =>
        let result :=
          match postResult with
          | some p => p
          | none => result
        let final :=
          match result with
          | PVal.errorResult m => PVal.errorResult m
          | other => ValidResult.make other
        asset.set_result (some final) now

/-- `get_action_and_args` for an asset whose action is already a real action
(reference chains are modelled separately below with `MAsset`): the while
loop body never runs, and the merge loop computes `{}` updated with the
asset's own arguments — a copy of them. -/
def UAsset.get_action_and_args (a : UAsset) : UAction × List (String × PVal) :=
  (a.action, dupdate [] a.action_args)

/-- Events recorded while running an update strategy (ghost instrumentation;
the values carry no data the source computes). -/
inductive UpdateEvent where
  | preUpdateCalled
  | dependencyUpdated (idx : Nat)
  | actionExecuted
deriving Repr, DecidableEq

/-- `UpdateStrategyBasic.update` (with `_update_without_user_params` and
`_parametrized_update` inlined): without caller arguments this is a read —
`r` required, executed in place when `w` is also granted, else on a clone;
with caller arguments `x` is required and a clone executes the merged
arguments.  A raised `PermissionError` (or the missing-permissions
`ValueError` from `get_permissions`) is an `Except.error`. -/
def UpdateStrategyBasic.update (asset : UAsset) (ctx : UpdateContext)
    (kwargs : List (String × PVal)) (now : Nat) :
    Except String (UAsset × List UpdateEvent) :=
  let aa := asset.get_action_and_args
  let action := aa.1
  let action_args := aa.2
  if kwargs.length = 0 then
    match asset.permissions with
    | none => Except.error "Asset is not completely initialized: permissions are missing"
    | some perms =>
      if ctx.permission_granted perms "r" then
        if ctx.permission_granted perms "w" then
          Except.ok (execute_action asset action action_args now,
                     [UpdateEvent.actionExecuted])
        else
          Except.ok (execute_action (asset.clone now) action action_args now,
                     [UpdateEvent.actionExecuted])
      else Except.error "read permission denied"
  else
    match asset.permissions with
    | none => Except.error "Asset is not completely initialized: permissions are missing"
    | some perms =>
      if ctx.permission_granted perms "x" then
        Except.ok (execute_action (asset.clone now) action (dupdate action_args kwargs) now,
                   [UpdateEvent.actionExecuted])
      else Except.error "execute permission denied"

/-- `UpdateStrategyMake.update_required`: phony, or no prior result, or
`last_build < last_modification`.  (The source guards on
`last_build is not None`; comparing a datetime against a `None`
modification date would raise in Python — that pairing does not arise in
the states the claims exercise and is treated as `False` here.  The source
actually calls `asset.is_phony()`, `asset.get_last_build_date()` and
`asset.get_last_modification_date()`, none of which exist on `Asset`; the
evidently intended fields are read directly.) -/
def UpdateStrategyMake.update_required (phony : Bool) (result : Option PVal)
    (last_build last_modification : Option Nat) : Bool :=
  phony || result.isNone ||
    (match last_build, last_modification with
     | some b, some m => decide (b < m)
     | some _, none => false
     | none, _ => false)

def UpdateStrategyMake.requiredForAsset (a : UAsset) : Bool :=
  UpdateStrategyMake.update_required a.meta_phony a.build_result
    a.last_build a.last_modification

def UpdateStrategyMake.requiredForDep (d : DepAsset) : Bool :=
  UpdateStrategyMake.update_required d.phony d.build_result
    d.last_build d.last_modification

/-- `UpdateStrategyMake.update`: call `pre_update`, gather the dependency
assets, return the asset unchanged when no update is required; otherwise
call `update_dependency` for each dependency — and then fall off the end of
the function, returning Python `None`.  No code path runs the asset's own
action.  (`action.pre_update()` is invoked with no arguments although
`BasicAction.pre_update(self, asset, args, context)` requires three, so in
Python this call already raises `TypeError`; the charitable reading in which
`pre_update` succeeds as a no-op is modelled, and even then the asset's
action never executes.) -/
def UpdateStrategyMake.update (asset : UAsset) (_ctx : UpdateContext)
    (_kwargs : List (String × PVal)) (_now : Nat) :
    Except String (Option UAsset × List UpdateEvent) :=
  let events := [UpdateEvent.preUpdateCalled]
  let required := UpdateStrategyMake.requiredForAsset asset
      || asset.dependencies.any UpdateStrategyMake.requiredForDep
  if ! required then
    Except.ok (some asset, events)
  else
    let events := events ++
      (List.range asset.dependencies.length).map UpdateEvent.dependencyUpdated
    Except.ok (none, events)

/-- The `update_strategies` registry (`basic`, `make`, `std`). -/
inductive StrategyName where
  | basic
  | make
deriving Repr, DecidableEq

def update_strategies : List (String × StrategyName) :=
  [("basic", StrategyName.basic), ("make", StrategyName.make),
   ("std", StrategyName.basic)]

/-- `Asset.update`: look up the strategy by name and run it; any exception is
captured on the asset as an `ErrorResult` and the asset itself is returned —
nothing propagates to the caller. -/
def UAsset.update (asset : UAsset) (ctx : UpdateContext)
    (kwargs : List (String × PVal)) (now : Nat) : Option UAsset × List UpdateEvent :=
  let attempt : Except String (Option UAsset × List UpdateEvent) :=
    match dget update_strategies asset.updater with
    | none => Except.error ("KeyError: " ++ asset.updater)
    | some StrategyName.basic =>
      match UpdateStrategyBasic.update asset ctx kwargs now with
      | Except.ok (a, ev) => Except.ok (some a, ev)
      | Except.error e => Except.error e
    | some StrategyName.make => UpdateStrategyMake.update asset ctx kwargs now
  match attempt with
  | Except.ok r => r
  | Except.error e =>
    (some (asset.set_result (some (PVal.errorResult e)) now), [])

/-! ## Reference chains for `get_action_and_args` (`update_strategy.py`)

An asset whose action is an `IAssetReference` resolves through
`get_asset()` to another asset, whose action may again be a reference.
The mutual inductive captures such (necessarily acyclic) chains. -/

mutual
inductive MAsset where
  | mk (action_args : List (String × PVal)) (action : MAction)
inductive MAction where
  | real (name : String)
  | invalid
  | ref (asset : MAsset)
end

def MAsset.action_args : MAsset → List (String × PVal)
  | MAsset.mk args _ => args

def MAsset.action : MAsset → MAction
  | MAsset.mk _ a => a

/-- The `while isinstance(action, IAssetReference)` loop: collect the
referenced assets' argument maps in traversal order (shallowest first) and
return the final non-reference action. -/
def collectRefArgs : MAction → List (List (String × PVal)) × MAction
  | MAction.ref (MAsset.mk args inner) =>
    let p := collectRefArgs inner
    (args :: p.1, p.2)
  | a => ([], a)

/-- `get_action_and_args`: after the loop, the asset's own arguments are
appended to the collected list; the merge loop then pops from the end of
that list and applies `dict.update`, so the asset's own arguments are merged
first and the shallowest referenced asset's arguments last. -/
def get_action_and_args (asset : MAsset) :
    Except String (MAction × List (String × PVal)) :=
  let p := collectRefArgs asset.action
  let args_from_asset := p.1 ++ [asset.action_args]
  match p.2 with
  | MAction.real n =>
    Except.ok (MAction.real n,
      (args_from_asset.reverse).foldl (fun acc args => dupdate acc args) [])
  | _ => Except.error "referred action is of invalid type"

/-- First-hit lookup of a key across a priority-ordered list of argument
maps (used to state the merge semantics). -/
def lookupFirst (ds : List (List (String × PVal))) (k : String) : Option PVal :=
  match ds with
  | [] => none
  | d :: rest =>
    match dget d k with
    | some v => some v
    | none => lookupFirst rest k

/-- The keys of a Python dict are unique. -/
def NodupKeys {α : Type} (d : List (String × α)) : Prop :=
  (d.map Prod.fst).Nodup

/-! ## `src/lib/dispatcher_decorator.py` — multi-variant dispatch

A registered variant either carries a precondition (`has_precondition`),
in which case `precondition_ok` — which checks the predicates, the declared
parameter names and the type annotations — gates it, or it is bare, in which
case the positional argument count must equal its declared parameter count.
The body returning `Except.error` models a raised exception. -/

structure CallArgs where
  positional : List PVal
  kwargs : List (String × PVal)

structure DispatchVariant where
  hasPre : Bool
  pre : CallArgs → Bool
  paramCount : Nat
  body : CallArgs → Except String PVal

inductive DispatchResult where
  | value (v : PVal)
  | raised (e : String)
  | noVariant
deriving Repr, DecidableEq

/-- The selection test of the dispatcher loop. -/
def variantMatches (v : DispatchVariant) (call : CallArgs) : Bool :=
  if v.hasPre then v.pre call else call.positional.length == v.paramCount

/-- Run a matched variant: the result is returned, an exception re-raised. -/
def runVariantBody (v : DispatchVariant) (call : CallArgs) : DispatchResult :=
  match v.body call with
  | Except.ok r => DispatchResult.value r
  | Except.error e => DispatchResult.raised e

/-- The `dispatcher` closure produced by `DispatchedNamespace.variant`:
walk the variants in registration order, run the first whose precondition
holds (or, for a bare variant, whose declared parameter count equals the
positional argument count); raise `TypeError` when none matches. -/
def dispatcher : List DispatchVariant → CallArgs → DispatchResult
  | [], _ => DispatchResult.noVariant
  | v :: rest, call =>
    if v.hasPre then
      if v.pre call then runVariantBody v call
      else dispatcher rest call
    else if call.positional.length == v.paramCount then
      runVariantBody v call
    else dispatcher rest call

/-! ## Concrete fixtures

A registry in the shape the store's demo `_make_user_registry` builds:
`root ∈ system`, `team ∈ developers`, `bob ∈ team`, every entity inheriting
from `*`.  The `credentials` fields are the merged views `init_credentials`
materializes (own core keys plus every ancestor's core keys); note the `*`
entity holds only its own `r`/`w`/`x` — `make_entity`'s `mode=0o5777`
keyword lands in `meta`, not in the credentials. -/

def coreKeys (n : String) : List (String × Bool) :=
  [("r:" ++ n, true), ("w:" ++ n, true), ("x:" ++ n, true)]

def starEntity : Entity :=
  { name := "*", inherits_from := [], credentials := coreKeys "*" }

def plainUserEntity (n : String) : Entity :=
  { name := n, inherits_from := ["*"], credentials := coreKeys "*" ++ coreKeys n }

def teamEntity : Entity :=
  { name := "team", inherits_from := ["*", "developers"],
    credentials := coreKeys "*" ++ coreKeys "developers" ++ coreKeys "team" }

def bobEntity : Entity :=
  { name := "bob", inherits_from := ["*", "team"],
    credentials := coreKeys "*" ++ coreKeys "developers" ++ coreKeys "team"
      ++ coreKeys "bob" }

def rootEntity : Entity :=
  { name := "root", inherits_from := ["*", "system"],
    credentials := coreKeys "*" ++ coreKeys "system" ++ coreKeys "root" }

def regStd : UserRegistry :=
  { entities :=
      [("*", starEntity),
       ("root", rootEntity),
       ("alice", plainUserEntity "alice"),
       ("bob", bobEntity),
       ("charly", plainUserEntity "charly"),
       ("system", plainUserEntity "system"),
       ("team", teamEntity),
       ("developers", plainUserEntity "developers")] }

def ctxRoot : UpdateContext := UpdateContext.make regStd "root" "system"
def ctxBob : UpdateContext := UpdateContext.make regStd "bob" "team"

/-- The default root permissions `UnixPermissions('root', 'system', 0o775)`. -/
def default_root_permissions : UnixPermissions :=
  UnixPermissions.init "root" (some "system") (some (ModeArg.int 0o775))

/-- The permissions `chmod` produces for an arbitrary three-octal-digit mode
on an `alice:developers` object (the permission-derivation fixture). -/
def modePerms (A B C : Nat) : UnixPermissions :=
  UnixPermissions.init "alice" (some "developers") (some (ModeArg.int (A * 64 + B * 8 + C)))

/-- S2 sticky fixture: `/tmp` owned `alice:developers`, mode `1775` (sticky
set, group write granted). -/
def tmpPermsS2 : UnixPermissions :=
  UnixPermissions.init "alice" (some "developers") (some (ModeArg.int 0o1775))

/-- S2 sticky fixture: the existing child `/tmp/a`, owned by alice. -/
def childPermsS2 : UnixPermissions :=
  UnixPermissions.init "alice" (some "developers") (some (ModeArg.int 0o664))

/-- The `/tmp` directory contents: one child entry `a` owned by alice
(held as an `ActiveAsset` reference, a permission-bearing entry). -/
def tmpEntriesS2 : List (String × Node) :=
  [("a", Node.active 100001 (some childPermsS2))]

/-- S6 fixture: `UnixPermissions('bob', 'developers', 0o5775)`. -/
def permsBobS6 : UnixPermissions :=
  UnixPermissions.init "bob" (some "developers") (some (ModeArg.int 0o5775))

/-- S6 fixture after one trip through the persistence envelope. -/
def permsBobS6RoundTrip : UnixPermissions :=
  UnixPermissions.from_ctor_parameter permsBobS6.ctor_parameter

/-- Symlink fixture: root directory containing `link` (a `SymLink` to
`target`) and `target` (asset id 100001, present in the backend). -/
def storedAsset100001 : SAsset :=
  { local_id := 100001, is_read_dir := false, action_args := [] }

def storeWithLink : AssetStore :=
  { asset_tree := Node.dir (some default_root_permissions)
      [("link", Node.symlink "target" none),
       ("target", Node.assetId 100001)],
    asset_by_id_cache := [],
    storage := [(100001, storedAsset100001)],
    next_asset_id := 100002 }

/-- A no-op action (pre/post do nothing, execute returns a plain value). -/
def noopUAction : UAction :=
  { pre_execute := fun _ => Except.ok (),
    execute := fun _ => Except.ok (PVal.obj 0),
    post_execute := fun _ _ => Except.ok none }

/-- S3 make fixture: dependency Y, fresh (`last_build=null`, no result). -/
def depY : DepAsset :=
  { phony := false, build_result := none, last_modification := none, last_build := none }

/-- S3 make fixture: asset X with `updater='make'` and dependency Y, fresh. -/
def assetX : UAsset :=
  { action := noopUAction, action_args := [], permissions := some default_root_permissions,
    local_id := 100002, updater := "make", meta_phony := false, build_result := none,
    creation_date := 0, last_modification := none, last_build := none,
    dependencies := [depY] }

/-- Option.orElse on plain values (used to state lookup priorities). -/
def oor {α : Type} : Option α → Option α → Option α
  | some v, _ => some v
  | none, o => o

/-! ## Well-formedness for path round-trips -/

/-- A mapping key that the path syntax can carry: non-empty, and free of the
separator `.` and the index opener `[`. -/
def goodKeyChars (k : List Char) : Prop :=
  k ≠ [] ∧ '.' ∉ k ∧ '[' ∉ k

def wfCComp : CComp → Prop
  | CComp.ckey k => goodKeyChars k
  | CComp.cidx _ => True

instance (k : List Char) : Decidable (goodKeyChars k) :=
  inferInstanceAs (Decidable (k ≠ [] ∧ '.' ∉ k ∧ '[' ∉ k))

instance (c : CComp) : Decidable (wfCComp c) :=
  match c with
  | CComp.ckey k => inferInstanceAs (Decidable (goodKeyChars k))
  | CComp.cidx _ => inferInstanceAs (Decidable True)

/-- Does the component list start with an index component? -/
def isIdxHead : List CComp → Bool
  | CComp.cidx _ :: _ => true
  | _ => false

/-- A path that rendering and parsing can round-trip: every key component is
good, and the path does not start with an index (rendered index groups only
parse after a key). -/
def wfCPath (p : List CComp) : Prop :=
  (∀ c ∈ p, wfCComp c) ∧ isIdxHead p = false

/-- Splits the longest prefix of index components off a component list. -/
def takeIdxs : List CComp → List Int × List CComp
  | CComp.cidx n :: rest =>
    let p := takeIdxs rest
    (n :: p.1, p.2)
  | l => ([], l)

/-- The rendering of a run of index components: `[n1][n2]...`. -/
def renderIdxTail (ns : List Int) : List Char :=
  (ns.map (fun n => '[' :: (intToChars n ++ [']']))).flatten

/-! ## Theorems -/

/-- C9 counterexample: constructing `UnixPermissions('bob','developers',0o5775)`
and passing it through the persistence envelope does *not* give the claimed
`short_repr` string `'rwxrwxrwx+ bob developers'` — the others digit of
`0o5775` is 5, so the third triple is `r-x`. -/
theorem short_repr_roundtrip_not_rwxrwxrwx :
    permsBobS6RoundTrip.short_repr ≠ "rwxrwxrwx+ bob developers" := by
  decide

/-- C9 amended: the envelope round-trip reproduces the permissions object
exactly, and its `short_repr()` is `'rwxrwxr-x+ bob developers'` (the `+`
records the extended `s:*`/`t:*` keys). -/
theorem short_repr_roundtrip_actual :
    permsBobS6RoundTrip = permsBobS6 ∧
    permsBobS6RoundTrip.short_repr = "rwxrwxr-x+ bob developers" := by
  constructor
  · rfl
  · decide

/-- C3: the sticky bit is *not* enforced.  On `/tmp` (mode `1775`, owner
alice, sticky `t:*` present in the permission map) with an existing child
owned by alice, `_may_write_directory` nevertheless answers `true` for bob
(who only holds `w` through the group): the guard asks the *registry*
whether the entity `*` holds the right `t` (`is_right_granted(reg,'*','t')`),
and the `*` entity's credentials never contain a `t:*` key, so the
owner-only branch is unreachable and bob may overwrite alice's entry. -/
theorem sticky_overwrite_not_restricted_to_owner :
    dget tmpPermsS2.permissions "t:*" = some true ∧
    childPermsS2.user_name = "alice" ∧
    ctxBob.get_user = "bob" ∧
    ctxBob.permission_granted tmpPermsS2 "w" = true ∧
    tmpPermsS2.is_right_granted regStd "*" "t" = false ∧
    AssetStore.may_write_directory ctxBob (some tmpPermsS2) tmpEntriesS2 "a"
      = Except.ok true := by
  refine ⟨rfl, rfl, rfl, by decide, by decide, rfl⟩

/-- C5: a `SymLink` node is not followed.  `_acquire_by_path` dispatches on
mapping / int / `ActiveAsset` and then falls through `else: pass`, so
acquiring `link` (a `SymLink` to `target`) returns Python `None`, while
acquiring `target` itself yields the stored asset. -/
theorem symlink_not_followed_by_acquire :
    (AssetStore.acquire storeWithLink ctxRoot (some "link") none DefaultArg.noneArg).1
      = Except.ok PyAcquired.pyNone ∧
    (AssetStore.acquire storeWithLink ctxRoot (some "target") none DefaultArg.noneArg).1
      = Except.ok (PyAcquired.asset storedAsset100001) := by
  constructor
  · rfl
  · rfl

/-- C1: for the S3 scenario — asset X with `updater='make'` and one fresh
dependency Y (no prior results, `last_build = null`, so an update is
required) — `update` calls `update_dependency` for the dependency and then
falls off the end of `UpdateStrategyMake.update`: it returns Python `None`,
and the asset's own action is never executed (no `actionExecuted` event
exists on any make-strategy path). -/
theorem make_update_never_runs_asset_action :
    ∀ (ctx : UpdateContext) (kwargs : List (String × PVal)) (now : Nat),
      UAsset.update assetX ctx kwargs now
        = (none, [UpdateEvent.preUpdateCalled, UpdateEvent.dependencyUpdated 0]) ∧
      UpdateEvent.actionExecuted ∉ (UAsset.update assetX ctx kwargs now).2 := by
  intro ctx kwargs now
  have h1 : UAsset.update assetX ctx kwargs now
      = (none, [UpdateEvent.preUpdateCalled, UpdateEvent.dependencyUpdated 0]) := rfl
  refine ⟨h1, ?_⟩
  rw [h1]
  decide

/-- All-denied permissions (`chmod(0)` on a `root:system` object). -/
def noRightsPerms : UnixPermissions :=
  UnixPermissions.init "root" (some "system") (some (ModeArg.int 0))

/-- C6: `execute_action` captures exceptions from `pre_execute`, `execute`
and `post_execute` as `ErrorResult`s stored on the asset; an `execute`
return that is no `CallResult` is wrapped in a `ValidResult`; a returned
`ValidResult` is passed through un-nested and a returned `ErrorResult` is
kept as the error.  Through `Asset.update` nothing propagates: a strategy
exception (here: the basic strategy's `PermissionError`) is also captured
on the asset, and an action exception surfaces only as the stored
`ErrorResult` of the updated asset. -/
theorem execute_action_captures_and_wraps :
    ∀ (a : UAsset) (args : List (String × PVal)) (now : Nat) (e : String)
      (v : PVal) (n : Nat)
      (exec : List (String × PVal) → Except String PVal)
      (post : List (String × PVal) → PVal → Except String (Option PVal)),
      (execute_action a
          { pre_execute := fun _ => Except.error e, execute := exec,
            post_execute := post } args now
        = a.set_result (some (PVal.errorResult ("in pre_execute(): " ++ e))) now) ∧
      (execute_action a
          { pre_execute := fun _ => Except.ok (), execute := fun _ => Except.error e,
            post_execute := post } args now
        = a.set_result (some (PVal.errorResult ("action failed: " ++ e))) now) ∧
      (execute_action a
          { pre_execute := fun _ => Except.ok (), execute := fun _ => Except.ok v,
            post_execute := fun _ _ => Except.error e } args now
        = a.set_result (some (PVal.errorResult ("in post_execute(): " ++ e))) now) ∧
      (execute_action a
          { pre_execute := fun _ => Except.ok (),
            execute := fun _ => Except.ok (PVal.obj n),
            post_execute := fun _ _ => Except.ok none } args now
        = a.set_result (some (PVal.validResult (PVal.obj n))) now) ∧
      (execute_action a
          { pre_execute := fun _ => Except.ok (),
            execute := fun _ => Except.ok (PVal.validResult v),
            post_execute := fun _ _ => Except.ok none } args now
        = a.set_result (some (PVal.validResult v)) now) ∧
      (execute_action a
          { pre_execute := fun _ => Except.ok (),
            execute := fun _ => Except.ok (PVal.errorResult e),
            post_execute := fun _ _ => Except.ok none } args now
        = a.set_result (some (PVal.errorResult e)) now) ∧
      (UAsset.update { a with updater := "basic", permissions := some noRightsPerms }
          ctxRoot [] now
        = (some (UAsset.set_result
            { a with updater := "basic", permissions := some noRightsPerms }
            (some (PVal.errorResult "read permission denied")) now), [])) ∧
      (UAsset.update { a with updater := "basic", permissions := some default_root_permissions, action := { pre_execute := fun _ => Except.ok (), execute := fun _ => Except.error e, post_execute := post } } ctxRoot [] now
        = (some (UAsset.set_result { a with updater := "basic", permissions := some default_root_permissions, action := { pre_execute := fun _ => Except.ok (), execute := fun _ => Except.error e, post_execute := post } } (some (PVal.errorResult ("action failed: " ++ e))) now),
           [UpdateEvent.actionExecuted])) := by
  intro a args now e v n exec post
  exact ⟨rfl, rfl, rfl, rfl, rfl, rfl, rfl, rfl⟩

/-- C10: `acquire` raises `ValueError` when both a (truthy) path and a
(truthy) asset id are supplied, and also when neither is (Python truthiness:
`None`, the empty string and the integer 0 are falsy); in both cases the
store — directory tree, id cache, counter — is returned unchanged. -/
theorem acquire_rejects_both_and_neither (store : AssetStore) (ctx : UpdateContext)
    (p : Option String) (i : Option Int) (d : DefaultArg) :
    ((match p with | some s => s != "" | none => false) = true →
     (match i with | some n => n != 0 | none => false) = true →
       AssetStore.acquire store ctx p i d =
         (Except.error "acquire() called with path and asset id - only one of them is allowed",
          store)) ∧
    ((match p with | some s => s != "" | none => false) = false →
     (match i with | some n => n != 0 | none => false) = false →
       AssetStore.acquire store ctx p i d =
         (Except.error "acquire() called without path or asset id", store)) := by
  constructor
  · intro h1 h2
    simp only [AssetStore.acquire, h1, h2]
    rfl
  · intro h1 h2
    simp only [AssetStore.acquire, h1, h2]
    rfl

/-- Witness for `acquire_rejects_both_and_neither` at a concrete store,
path `"a"` and id `5`. -/
theorem acquire_rejects_both_witness :
    AssetStore.acquire storeWithLink ctxRoot (some "a") (some 5) DefaultArg.noneArg =
      (Except.error "acquire() called with path and asset id - only one of them is allowed",
       storeWithLink) :=
  (acquire_rejects_both_and_neither storeWithLink ctxRoot (some "a") (some 5)
    DefaultArg.noneArg).1 (by decide) (by decide)

/-- After `chmod` of a three-octal-digit mode on an `alice:developers`
object, the permission map holds exactly the nine `r/w/x` keys for owner,
group and `*`, valued by the corresponding mode bits (the special digit of
a three-digit mode is 0, so no `s:*`/`t:*` keys appear). -/
theorem modePerms_eq (A B C : Nat) (hA : A < 8) (hB : B < 8) (hC : C < 8) :
    modePerms A B C =
      { user_name := "alice", group_name := some "developers",
        permissions :=
          [("r:alice", A &&& 4 != 0), ("w:alice", A &&& 2 != 0), ("x:alice", A &&& 1 != 0),
           ("r:developers", B &&& 4 != 0), ("w:developers", B &&& 2 != 0),
           ("x:developers", B &&& 1 != 0),
           ("r:*", C &&& 4 != 0), ("w:*", C &&& 2 != 0), ("x:*", C &&& 1 != 0)] } := by
  have e7 : (7 : Nat) = 2 ^ 3 - 1 := by norm_num
  have h9 : (A * 64 + B * 8 + C) >>> 9 &&& 7 = 0 := by
    rw [Nat.shiftRight_eq_div_pow, e7, Nat.and_pow_two_sub_one_eq_mod]
    omega
  have h6 : (A * 64 + B * 8 + C) >>> 6 &&& 7 = A := by
    rw [Nat.shiftRight_eq_div_pow, e7, Nat.and_pow_two_sub_one_eq_mod]
    omega
  have h3 : (A * 64 + B * 8 + C) >>> 3 &&& 7 = B := by
    rw [Nat.shiftRight_eq_div_pow, e7, Nat.and_pow_two_sub_one_eq_mod]
    omega
  have h0 : (A * 64 + B * 8 + C) &&& 7 = C := by
    rw [e7, Nat.and_pow_two_sub_one_eq_mod]
    omega
  simp [modePerms, UnixPermissions.init, UnixPermissions.chmod, h9, h6, h3, h0,
    UnixPermissions.set_user_permissions, UnixPermissions.set_group_permissions,
    UnixPermissions.decode_int_permissions, dset]

/-- C4 counterexample: after `chmod(0o007)` the *owner* is granted `r`
although the owner digit has no `r` bit — `is_right_granted` falls through
to the others clause (`r:*`), so the owner grant is not determined by the
owner digit alone as the claim states. -/
theorem chmod_owner_bit_not_sole_source :
    (modePerms 0 0 7).is_right_granted regStd "alice" "r" = true ∧
    (0 : Nat) &&& 4 = 0 := by
  exact ⟨by decide, by decide⟩

/-- C4 amended: for a mode with octal digits A B C on an `alice:developers`
object, against the registry `regStd` (owner, group and `*` each holding
their own `r/w/x`, owner not a group member): the owner's grant is the owner
bit OR the others bit; a group member's grant is the group bit OR the others
bit; anyone else known gets exactly the others bit. -/
theorem chmod_rights_derivation (A B C : Nat) (hA : A < 8) (hB : B < 8) (hC : C < 8) :
    ((modePerms A B C).is_right_granted regStd "alice" "r"
      = ((A &&& 4 != 0) || (C &&& 4 != 0))) ∧
    ((modePerms A B C).is_right_granted regStd "bob" "r"
      = ((B &&& 4 != 0) || (C &&& 4 != 0))) ∧
    ((modePerms A B C).is_right_granted regStd "charly" "r"
      = (C &&& 4 != 0)) ∧
    ((modePerms A B C).is_right_granted regStd "alice" "w"
      = ((A &&& 2 != 0) || (C &&& 2 != 0))) ∧
    ((modePerms A B C).is_right_granted regStd "bob" "w"
      = ((B &&& 2 != 0) || (C &&& 2 != 0))) ∧
    ((modePerms A B C).is_right_granted regStd "charly" "w"
      = (C &&& 2 != 0)) ∧
    ((modePerms A B C).is_right_granted regStd "alice" "x"
      = ((A &&& 1 != 0) || (C &&& 1 != 0))) ∧
    ((modePerms A B C).is_right_granted regStd "bob" "x"
      = ((B &&& 1 != 0) || (C &&& 1 != 0))) ∧
    ((modePerms A B C).is_right_granted regStd "charly" "x"
      = (C &&& 1 != 0)) := by
  rw [modePerms_eq A B C hA hB hC]
  refine ⟨?_, ?_, ?_, ?_, ?_, ?_, ?_, ?_, ?_⟩ <;>
    simp only [UnixPermissions.is_right_granted, UserRegistry.get_entity,
      UserRegistry.has_right, Entity.has_credential, Entity.inheritsFrom,
      Entity.inheritsFromFuel, dget, dgetD, pyStr, regStd, starEntity,
      plainUserEntity, teamEntity, bobEntity, rootEntity, coreKeys] <;>
    simp
  · by_cases h1 : A &&& 4 = 0 <;> by_cases h2 : B &&& 4 = 0 <;>
      by_cases h3 : C &&& 4 = 0 <;> simp [dget, dgetD, h1, h2, h3]
  · by_cases h1 : A &&& 4 = 0 <;> by_cases h2 : B &&& 4 = 0 <;>
      by_cases h3 : C &&& 4 = 0 <;> simp [dget, dgetD, h1, h2, h3]
  · by_cases h1 : A &&& 4 = 0 <;> by_cases h2 : B &&& 4 = 0 <;>
      by_cases h3 : C &&& 4 = 0 <;> simp [dget, dgetD, h1, h2, h3]
  · by_cases h1 : A &&& 2 = 0 <;> by_cases h2 : B &&& 2 = 0 <;>
      by_cases h3 : C &&& 2 = 0 <;> simp [dget, dgetD, h1, h2, h3]
  · by_cases h1 : A &&& 2 = 0 <;> by_cases h2 : B &&& 2 = 0 <;>
      by_cases h3 : C &&& 2 = 0 <;> simp [dget, dgetD, h1, h2, h3]
  · by_cases h1 : A &&& 2 = 0 <;> by_cases h2 : B &&& 2 = 0 <;>
      by_cases h3 : C &&& 2 = 0 <;> simp [dget, dgetD, h1, h2, h3]
  · by_cases h1 : A % 2 = 1 <;> by_cases h2 : B % 2 = 1 <;>
      by_cases h3 : C % 2 = 1 <;> simp [dget, dgetD, Nat.and_one_is_mod, h1, h2, h3]
  · by_cases h1 : A % 2 = 1 <;> by_cases h2 : B % 2 = 1 <;>
      by_cases h3 : C % 2 = 1 <;> simp [dget, dgetD, Nat.and_one_is_mod, h1, h2, h3]
  · by_cases h1 : A % 2 = 1 <;> by_cases h2 : B % 2 = 1 <;>
      by_cases h3 : C % 2 = 1 <;> simp [dget, dgetD, Nat.and_one_is_mod, h1, h2, h3]

/-- Witness for `chmod_rights_derivation` at mode `0o775`. -/
theorem chmod_rights_derivation_witness :
    (7 : Nat) < 8 ∧
    (((modePerms 7 7 5).is_right_granted regStd "alice" "r"
      = (((7 : Nat) &&& 4 != 0) || ((5 : Nat) &&& 4 != 0))) ∧
    ((modePerms 7 7 5).is_right_granted regStd "bob" "r"
      = (((7 : Nat) &&& 4 != 0) || ((5 : Nat) &&& 4 != 0))) ∧
    ((modePerms 7 7 5).is_right_granted regStd "charly" "r"
      = ((5 : Nat) &&& 4 != 0)) ∧
    ((modePerms 7 7 5).is_right_granted regStd "alice" "w"
      = (((7 : Nat) &&& 2 != 0) || ((5 : Nat) &&& 2 != 0))) ∧
    ((modePerms 7 7 5).is_right_granted regStd "bob" "w"
      = (((7 : Nat) &&& 2 != 0) || ((5 : Nat) &&& 2 != 0))) ∧
    ((modePerms 7 7 5).is_right_granted regStd "charly" "w"
      = ((5 : Nat) &&& 2 != 0)) ∧
    ((modePerms 7 7 5).is_right_granted regStd "alice" "x"
      = (((7 : Nat) &&& 1 != 0) || ((5 : Nat) &&& 1 != 0))) ∧
    ((modePerms 7 7 5).is_right_granted regStd "bob" "x"
      = (((7 : Nat) &&& 1 != 0) || ((5 : Nat) &&& 1 != 0))) ∧
    ((modePerms 7 7 5).is_right_granted regStd "charly" "x"
      = ((5 : Nat) &&& 1 != 0))) :=
  ⟨by norm_num,
   chmod_rights_derivation 7 7 5 (by norm_num) (by norm_num) (by norm_num)⟩

theorem dget_dset {κ α : Type} [DecidableEq κ] (d : List (κ × α)) (k k2 : κ) (v : α) :
    dget (dset d k v) k2 = if k = k2 then some v else dget d k2 := by
  induction d with
  | nil => simp [dset, dget]
  | cons hd rest ih =>
    obtain ⟨k1, v1⟩ := hd
    by_cases h1 : k1 = k
    · subst h1
      by_cases h2 : k1 = k2 <;> simp [dset, dget, h2]
    · by_cases h2 : k1 = k2
      · subst h2
        have e1 : dset ((k1, v1) :: rest) k v = (k1, v1) :: dset rest k v := by
          simp [dset, h1]
        have e2 : dget ((k1, v1) :: dset rest k v) k1 = some v1 := by
          simp [dget]
        have e3 : dget ((k1, v1) :: rest) k1 = some v1 := by
          simp [dget]
        rw [e1, e2, e3, if_neg (fun hh => h1 hh.symm)]
      · simp [dset, dget, h1, h2, ih]

theorem dget_of_not_mem {κ α : Type} [DecidableEq κ] (d : List (κ × α)) (k : κ)
    (h : k ∉ d.map Prod.fst) : dget d k = none := by
  induction d with
  | nil => rfl
  | cons hd rest ih =>
    obtain ⟨k1, v1⟩ := hd
    rw [List.map_cons, List.mem_cons] at h
    push_neg at h
    show (if k1 = k then some v1 else dget rest k) = none
    rw [if_neg (fun hh => h.1 hh.symm), ih h.2]

theorem dget_dupdate {κ α : Type} [DecidableEq κ] (d e : List (κ × α)) (k : κ)
    (h : (e.map Prod.fst).Nodup) :
    dget (dupdate d e) k = oor (dget e k) (dget d k) := by
  induction e generalizing d with
  | nil => simp [dupdate, dget, oor]
  | cons hd rest ih =>
    obtain ⟨k1, v1⟩ := hd
    rw [List.map_cons, List.nodup_cons] at h
    have step : dupdate d ((k1, v1) :: rest) = dupdate (dset d k1 v1) rest := rfl
    rw [step, ih (dset d k1 v1) h.2]
    by_cases hk : k1 = k
    · subst hk
      have hnone : dget rest k1 = none := dget_of_not_mem rest k1 h.1
      simp [dget, hnone, oor, dget_dset]
    · simp [dget, hk, dget_dset, oor]

theorem lookupFirst_append (l1 l2 : List (List (String × PVal))) (k : String) :
    lookupFirst (l1 ++ l2) k = oor (lookupFirst l1 k) (lookupFirst l2 k) := by
  induction l1 with
  | nil => simp [lookupFirst, oor]
  | cons d rest ih =>
    cases hdk : dget d k <;> simp [lookupFirst, hdk, oor, ih]

theorem oor_assoc {α : Type} (a b c : Option α) : oor (oor a b) c = oor a (oor b c) := by
  cases a <;> simp [oor]

theorem oor_none_right {α : Type} (a : Option α) : oor a none = a := by
  cases a <;> simp [oor]

theorem dget_foldl_dupdate (l : List (List (String × PVal)))
    (acc : List (String × PVal)) (k : String)
    (h : ∀ d ∈ l, NodupKeys d) :
    dget (l.foldl dupdate acc) k = oor (lookupFirst l.reverse k) (dget acc k) := by
  induction l generalizing acc with
  | nil => simp [lookupFirst, oor]
  | cons d rest ih =>
    have hd : NodupKeys d := h d (by simp)
    have hrest : ∀ x ∈ rest, NodupKeys x := fun x hx => h x (by simp [hx])
    simp only [List.foldl_cons, List.reverse_cons]
    rw [ih (dupdate acc d) hrest, lookupFirst_append,
      dget_dupdate acc d k hd, oor_assoc]
    simp [lookupFirst, oor_none_right]
    cases dget d k <;> cases lookupFirst rest.reverse k <;> simp [oor]

/-- C2 counterexample: chain `A → B` where A's own args and the referenced
asset B's args collide on key `k` (A: 1, B: 2).  The claim says the
shallower asset A overrides the deeper B, so the effective value should be
A's `1`; the source merges A's own args *first* (they are appended last and
popped first), so B's `2` wins. -/
theorem merge_chain_counterexample :
    get_action_and_args
        (MAsset.mk [("k", PVal.obj 1)]
          (MAction.ref (MAsset.mk [("k", PVal.obj 2)] (MAction.real "c"))))
      = Except.ok (MAction.real "c", [("k", PVal.obj 2)]) ∧
    PVal.obj 2 ≠ PVal.obj 1 := by
  refine ⟨rfl, by simp⟩

/-- C2 amended: for an asset whose action resolves through a reference chain
to a real action, the effective argument value for every key is found by
first-hit lookup in this priority order: the caller's arguments, then the
referenced assets' argument maps from the shallowest reference to the
deepest, and the asset's *own* arguments last (they are overridden by every
referenced asset — not, as claimed, the other way around). -/
theorem get_action_and_args_merge_priority (asset : MAsset)
    (kwargs : List (String × PVal)) (act : String) (args : List (String × PVal))
    (k : String)
    (h : get_action_and_args asset = Except.ok (MAction.real act, args))
    (hkw : NodupKeys kwargs)
    (hrefs : ∀ d ∈ (collectRefArgs asset.action).1, NodupKeys d)
    (hown : NodupKeys asset.action_args) :
    dget (dupdate args kwargs) k =
      lookupFirst (kwargs :: ((collectRefArgs asset.action).1 ++ [asset.action_args])) k := by
  have hargs : args =
      (((collectRefArgs asset.action).1 ++ [asset.action_args]).reverse).foldl
        (fun acc a => dupdate acc a) [] := by
    revert h
    unfold get_action_and_args
    cases hc : (collectRefArgs asset.action).2 <;> intro h <;>
      simp_all
  have hall : ∀ d ∈ ((collectRefArgs asset.action).1 ++ [asset.action_args]).reverse,
      NodupKeys d := by
    intro d hd
    rw [List.mem_reverse] at hd
    rcases List.mem_append.mp hd with h1 | h2
    · exact hrefs d h1
    · simp at h2
      subst h2
      exact hown
  have hfold := dget_foldl_dupdate
    (((collectRefArgs asset.action).1 ++ [asset.action_args]).reverse) [] k hall
  rw [List.reverse_reverse] at hfold
  have hargk : dget args k =
      lookupFirst ((collectRefArgs asset.action).1 ++ [asset.action_args]) k := by
    rw [hargs, hfold]
    simp [dget, oor_none_right]
  rw [dget_dupdate args kwargs k hkw, hargk]
  cases hdk : dget kwargs k <;> simp [lookupFirst, hdk, oor]

/-- Witness for `get_action_and_args_merge_priority` at the concrete
two-asset chain of the counterexample, with one caller argument. -/
theorem get_action_and_args_merge_priority_witness :
    dget (dupdate [("k", PVal.obj 2)] [("q", PVal.obj 9)]) "k" =
      lookupFirst ([("q", PVal.obj 9)] ::
        ((collectRefArgs (MAsset.mk [("k", PVal.obj 1)]
            (MAction.ref (MAsset.mk [("k", PVal.obj 2)] (MAction.real "c")))).action).1 ++
          [(MAsset.mk [("k", PVal.obj 1)]
            (MAction.ref (MAsset.mk [("k", PVal.obj 2)] (MAction.real "c")))).action_args]))
        "k" :=
  get_action_and_args_merge_priority
    (MAsset.mk [("k", PVal.obj 1)]
      (MAction.ref (MAsset.mk [("k", PVal.obj 2)] (MAction.real "c"))))
    [("q", PVal.obj 9)] "c" [("k", PVal.obj 2)] "k" rfl
    (by unfold NodupKeys; decide) (by unfold NodupKeys; decide)
    (by unfold NodupKeys; decide)

/-- C7: the dispatcher runs the *first* variant in registration order that
matches — a preconditioned variant matches when `precondition_ok` holds
(predicates, declared parameter names and annotated types), a bare variant
when the positional argument count equals its declared parameter count.
When no variant matches, the `no-such-variant` `TypeError` is raised; an
exception thrown by the matched variant's body is re-raised, never
swallowed. -/
theorem dispatcher_selects_first_match (variants : List DispatchVariant)
    (call : CallArgs) :
    dispatcher variants call =
      (match variants.find? (fun v => variantMatches v call) with
       | none => DispatchResult.noVariant
       | some v => runVariantBody v call) := by
  induction variants with
  | nil => rfl
  | cons v rest ih =>
    by_cases hpre : v.hasPre
    · by_cases hp : v.pre call
      · simp [dispatcher, hpre, hp, List.find?, variantMatches]
      · simp [dispatcher, hpre, hp, List.find?, variantMatches, ih]
    · by_cases hc : call.positional.length == v.paramCount
      · simp [dispatcher, hpre, hc, List.find?, variantMatches]
      · simp [dispatcher, hpre, hc, List.find?, variantMatches, ih]


/- digit/char facts -/

theorem digitVal_charOfDigit : ∀ d < 10, digitVal (charOfDigit d) = some d := by
  decide

theorem charOfDigit_range : ∀ d < 10,
    48 ≤ (charOfDigit d).toNat ∧ (charOfDigit d).toNat ≤ 57 := by
  decide

/- natToChars structure -/

theorem natToCharsGo_append (n : Nat) : ∀ (f : Nat) (acc : List Char), n < f →
    natToCharsGo f n acc = natToChars n ++ acc := by
  induction n using Nat.strong_induction_on with
  | _ n ih =>
    intro f acc h
    cases f with
    | zero => omega
    | succ f =>
      by_cases h10 : n < 10
      · simp [natToCharsGo, natToChars, h10]
      · have hdiv : n / 10 < n := Nat.div_lt_self (by omega) (by norm_num)
        have hstep : natToCharsGo (f + 1) n acc
            = natToCharsGo f (n / 10) (charOfDigit (n % 10) :: acc) := by
          simp [natToCharsGo, h10]
        have hn : natToChars n = natToChars (n / 10) ++ [charOfDigit (n % 10)] := by
          show natToCharsGo (n + 1) n [] = _
          have hstep2 : natToCharsGo (n + 1) n []
              = natToCharsGo n (n / 10) [charOfDigit (n % 10)] := by
            simp [natToCharsGo, h10]
          rw [hstep2]
          exact ih (n / 10) hdiv n [charOfDigit (n % 10)] (by omega)
        rw [hstep, ih (n / 10) hdiv f (charOfDigit (n % 10) :: acc) (by omega), hn,
          List.append_assoc]
        rfl

theorem natToChars_decomp_small (n : Nat) (h : n < 10) :
    natToChars n = [charOfDigit n] := by
  simp [natToChars, natToCharsGo, h]

theorem natToChars_decomp_large (n : Nat) (h : ¬n < 10) :
    natToChars n = natToChars (n / 10) ++ [charOfDigit (n % 10)] := by
  show natToCharsGo (n + 1) n [] = _
  have hstep : natToCharsGo (n + 1) n []
      = natToCharsGo n (n / 10) [charOfDigit (n % 10)] := by
    simp [natToCharsGo, h]
  rw [hstep]
  exact natToCharsGo_append (n / 10) n [charOfDigit (n % 10)]
    (lt_of_lt_of_le (Nat.div_lt_self (by omega) (by norm_num)) (by omega))

theorem natToChars_ne_nil (n : Nat) : natToChars n ≠ [] := by
  by_cases h : n < 10
  · rw [natToChars_decomp_small n h]; simp
  · rw [natToChars_decomp_large n h]; simp

theorem natToChars_chars (n : Nat) :
    ∀ c ∈ natToChars n, 48 ≤ c.toNat ∧ c.toNat ≤ 57 := by
  induction n using Nat.strong_induction_on with
  | _ n ih =>
    by_cases h : n < 10
    · rw [natToChars_decomp_small n h]
      intro c hc
      simp at hc
      subst hc
      exact charOfDigit_range n h
    · rw [natToChars_decomp_large n h]
      intro c hc
      rcases List.mem_append.mp hc with h1 | h2
      · exact ih (n / 10) (Nat.div_lt_self (by omega) (by norm_num)) c h1
      · simp at h2
        subst h2
        exact charOfDigit_range (n % 10) (Nat.mod_lt n (by omega))

/- parsing digits back -/

theorem parseDigitsGo_natToChars (n : Nat) : ∀ (a : Nat) (m : List Char),
    parseDigitsGo a (natToChars n ++ m)
      = parseDigitsGo (a * 10 ^ (natToChars n).length + n) m := by
  induction n using Nat.strong_induction_on with
  | _ n ih =>
    intro a m
    by_cases h : n < 10
    · rw [natToChars_decomp_small n h]
      show parseDigitsGo a (charOfDigit n :: m) = _
      simp only [parseDigitsGo, digitVal_charOfDigit n h, List.length_cons,
        List.length_nil, pow_one, zero_add]
      congr 1
      ring
    · rw [natToChars_decomp_large n h, List.append_assoc]
      rw [ih (n / 10) (Nat.div_lt_self (by omega) (by norm_num)) a
        ([charOfDigit (n % 10)] ++ m)]
      show parseDigitsGo _ (charOfDigit (n % 10) :: m) = _
      simp only [parseDigitsGo, digitVal_charOfDigit (n % 10) (Nat.mod_lt n (by omega))]
      congr 1
      simp only [List.length_append, List.length_cons, List.length_nil, pow_succ, pow_zero]
      have hmod := Nat.div_add_mod n 10
      ring_nf
      omega

theorem parseDigits_natToChars (n : Nat) : parseDigits (natToChars n) = some n := by
  have h0 := parseDigitsGo_natToChars n 0 []
  rw [List.append_nil] at h0
  simp only [parseDigitsGo, Nat.zero_mul, Nat.zero_add] at h0
  have hne := natToChars_ne_nil n
  rw [parseDigits, if_neg (by simpa using hne)]
  exact h0

/- intToChars and pyInt -/

theorem intToChars_chars (i : Int) :
    ∀ c ∈ intToChars i, c = '-' ∨ (48 ≤ c.toNat ∧ c.toNat ≤ 57) := by
  intro c hc
  by_cases h : i < 0
  · simp only [intToChars, if_pos h] at hc
    rcases List.mem_cons.mp hc with h1 | h2
    · exact Or.inl h1
    · exact Or.inr (natToChars_chars i.natAbs c h2)
  · simp only [intToChars, if_neg h] at hc
    exact Or.inr (natToChars_chars i.toNat c hc)

theorem pyInt_intToChars (i : Int) : pyInt (intToChars i) = Except.ok i := by
  by_cases h : i < 0
  · simp only [intToChars, if_pos h]
    show pyInt ('-' :: natToChars i.natAbs) = Except.ok i
    have hred : pyInt ('-' :: natToChars i.natAbs)
        = (match parseDigits (natToChars i.natAbs) with
           | some n => Except.ok (-(n : Int))
           | none => Except.error "invalid literal for int") := rfl
    rw [hred, parseDigits_natToChars i.natAbs]
    show Except.ok (-(i.natAbs : Int)) = Except.ok i
    have habs : (i.natAbs : Int) = -i := Int.ofNat_natAbs_of_nonpos (le_of_lt h)
    rw [habs, neg_neg]
  · simp only [intToChars, if_neg h]
    cases hc : natToChars i.toNat with
    | nil => exact absurd hc (natToChars_ne_nil i.toNat)
    | cons c cs =>
      have hdig : 48 ≤ c.toNat ∧ c.toNat ≤ 57 := by
        apply natToChars_chars i.toNat
        rw [hc]; simp
      have hm : c ≠ '-' := by
        intro he; subst he; revert hdig; decide
      have hp : c ≠ '+' := by
        intro he; subst he; revert hdig; decide
      show pyInt (c :: cs) = Except.ok i
      rw [pyInt, if_neg hm, if_neg hp, ← hc, parseDigits_natToChars i.toNat]
      show Except.ok ((i.toNat : Int)) = Except.ok i
      rw [Int.toNat_of_nonneg (by omega)]

/- bracket splitting -/

theorem splitAtRBracket_append (l r : List Char) (h : ']' ∉ l) :
    splitAtRBracket (l ++ ']' :: r) = some (l, r) := by
  induction l with
  | nil => simp [splitAtRBracket]
  | cons c rest ih =>
    rw [List.mem_cons] at h
    push_neg at h
    have hc : c ≠ ']' := fun he => h.1 he.symm
    simp only [List.cons_append, splitAtRBracket, if_neg hc]
    rw [show rest.append (']' :: r) = rest ++ ']' :: r from rfl, ih h.2]

theorem renderIdxTail_chars (ns : List Int) :
    ∀ c ∈ renderIdxTail ns, c = '[' ∨ c = ']' ∨ c = '-' ∨ (48 ≤ c.toNat ∧ c.toNat ≤ 57) := by
  induction ns with
  | nil => intro c hc; simp [renderIdxTail] at hc
  | cons i rest ih =>
    intro c hc
    simp only [renderIdxTail, List.map_cons, List.flatten_cons] at hc
    rcases List.mem_append.mp hc with h1 | h2
    · rcases List.mem_cons.mp h1 with h3 | h4
      · exact Or.inl h3
      · rcases List.mem_append.mp h4 with h5 | h6
        · rcases intToChars_chars i c h5 with h7 | h7
          · exact Or.inr (Or.inr (Or.inl h7))
          · exact Or.inr (Or.inr (Or.inr h7))
        · simp at h6
          exact Or.inr (Or.inl h6)
    · exact ih c h2

theorem renderIdxTail_cons (i : Int) (rest : List Int) :
    renderIdxTail (i :: rest)
      = ('[' :: intToChars i) ++ (']' :: renderIdxTail rest) := by
  simp [renderIdxTail]

/- the extraction loop -/

theorem extractAllIdxGo_renderIdxTail (ns : List Int) :
    ∀ (fuel : Nat) (steps : List CComp), (renderIdxTail ns).length < fuel →
      extractAllIdxGo fuel steps (renderIdxTail ns)
        = Except.ok (steps ++ ns.map CComp.cidx) := by
  induction ns with
  | nil =>
    intro fuel steps h
    cases fuel with
    | zero => simp [renderIdxTail] at h
    | succ f => simp [extractAllIdxGo, renderIdxTail]
  | cons i rest ih =>
    intro fuel steps h
    rw [renderIdxTail_cons] at h ⊢
    cases fuel with
    | zero => omega
    | succ f =>
      have hne : (('[' :: intToChars i) ++ (']' :: renderIdxTail rest)).isEmpty = false := by
        simp
      have hnob : ']' ∉ '[' :: intToChars i := by
        intro hmem
        rcases List.mem_cons.mp hmem with h1 | h2
        · simp at h1
        · rcases intToChars_chars i ']' h2 with h3 | h3
          · simp at h3
          · revert h3
            decide
      have hsplit := splitAtRBracket_append ('[' :: intToChars i) (renderIdxTail rest) hnob
      rw [extractAllIdxGo, if_neg (by simp [hne]), hsplit]
      show (match pyInt (('[' :: intToChars i).drop 1) with
        | Except.error e => Except.error e
        | Except.ok j => extractAllIdxGo f (steps ++ [CComp.cidx j]) (renderIdxTail rest))
        = _
      have hdrop : ('[' :: intToChars i).drop 1 = intToChars i := by simp
      rw [hdrop, pyInt_intToChars i]
      show extractAllIdxGo f (steps ++ [CComp.cidx i]) (renderIdxTail rest) = _
      have hlen : (renderIdxTail rest).length < f := by
        rw [List.length_append] at h
        simp only [List.length_cons] at h
        omega
      rw [ih f (steps ++ [CComp.cidx i]) hlen]
      simp

/- splitFirstBracket and parsePart -/

theorem splitFirstBracket_append (k t : List Char) (hk : '[' ∉ k)
    (ht : t = [] ∨ ∃ u, t = '[' :: u) : splitFirstBracket (k ++ t) = (k, t) := by
  induction k with
  | nil =>
    rcases ht with h1 | ⟨u, h2⟩
    · subst h1; rfl
    · subst h2; simp [splitFirstBracket]
  | cons c rest ih =>
    rw [List.mem_cons] at hk
    push_neg at hk
    have hc : c ≠ '[' := fun he => hk.1 he.symm
    simp only [List.cons_append, splitFirstBracket, if_neg hc]
    rw [show rest.append t = rest ++ t from rfl, ih hk.2]

theorem renderIdxTail_shape (ns : List Int) :
    renderIdxTail ns = [] ∨ ∃ u, renderIdxTail ns = '[' :: u := by
  cases ns with
  | nil => exact Or.inl rfl
  | cons i rest =>
    right
    rw [renderIdxTail_cons]
    exact ⟨_, rfl⟩

theorem parsePart_render (k : List Char) (ns : List Int) (steps : List CComp)
    (hk : goodKeyChars k) :
    parsePart steps (k ++ renderIdxTail ns)
      = Except.ok (steps ++ CComp.ckey k :: ns.map CComp.cidx) := by
  obtain ⟨hne, hdot, hbr⟩ := hk
  rw [parsePart, splitFirstBracket_append k (renderIdxTail ns) hbr (renderIdxTail_shape ns)]
  rw [if_neg (by simpa using hne)]
  rw [extractAllIdx, extractAllIdxGo_renderIdxTail ns ((renderIdxTail ns).length + 1)
    (steps ++ [CComp.ckey k]) (by omega)]
  simp

/- pySplit -/

theorem pySplit_no_sep (sep : Char) (l : List Char) (h : sep ∉ l) :
    pySplit sep l = [l] := by
  induction l with
  | nil => rfl
  | cons c rest ih =>
    rw [List.mem_cons] at h
    push_neg at h
    have hc : c ≠ sep := fun he => h.1 he.symm
    simp only [pySplit, if_neg hc]
    rw [ih h.2]

theorem pySplit_append (sep : Char) (a b : List Char) (h : sep ∉ a) :
    pySplit sep (a ++ sep :: b) = a :: pySplit sep b := by
  induction a with
  | nil => simp [pySplit]
  | cons c rest ih =>
    rw [List.mem_cons] at h
    push_neg at h
    have hc : c ≠ sep := fun he => h.1 he.symm
    simp only [List.cons_append, pySplit, if_neg hc]
    rw [show rest.append (sep :: b) = rest ++ sep :: b from rfl, ih h.2]

/- takeIdxs -/

theorem takeIdxs_spec (l : List CComp) :
    l = (takeIdxs l).1.map CComp.cidx ++ (takeIdxs l).2 := by
  induction l with
  | nil => rfl
  | cons c rest ih =>
    cases c with
    | ckey k => rfl
    | cidx n =>
      show CComp.cidx n :: rest
        = ((n :: (takeIdxs rest).1).map CComp.cidx) ++ (takeIdxs rest).2
      simp only [List.map_cons, List.cons_append]
      rw [← ih]

theorem takeIdxs_head (l : List CComp) :
    (takeIdxs l).2 = [] ∨ ∃ k r2, (takeIdxs l).2 = CComp.ckey k :: r2 := by
  induction l with
  | nil => exact Or.inl rfl
  | cons c rest ih =>
    cases c with
    | ckey k => exact Or.inr ⟨k, rest, rfl⟩
    | cidx n => exact ih

theorem takeIdxs_sub (l : List CComp) : ∀ c ∈ (takeIdxs l).2, c ∈ l := by
  induction l with
  | nil => intro c hc; exact hc
  | cons hd rest ih =>
    cases hd with
    | ckey k => intro c hc; exact hc
    | cidx n =>
      intro c hc
      exact List.mem_cons_of_mem _ (ih c hc)

theorem takeIdxs_len (l : List CComp) : (takeIdxs l).2.length ≤ l.length := by
  induction l with
  | nil => exact Nat.le.refl
  | cons hd rest ih =>
    cases hd with
    | ckey k => simp [takeIdxs]
    | cidx n =>
      show (takeIdxs rest).2.length ≤ rest.length + 1
      omega

/- render decomposition -/

theorem renderChars_key_cons (k : List Char) (rest : List CComp) :
    renderChars (CComp.ckey k :: rest) = k ++ (rest.map renderCompN).flatten := rfl

theorem map_renderCompN_idxs (ns : List Int) :
    (((ns.map CComp.cidx)).map renderCompN).flatten = renderIdxTail ns := by
  induction ns with
  | nil => rfl
  | cons i rest ih =>
    simp only [List.map_cons, List.flatten_cons, ih, renderIdxTail, renderCompN]

theorem renderChars_decomp (k : List Char) (ns : List Int) (r : List CComp)
    (hr : r = [] ∨ ∃ k2 r2, r = CComp.ckey k2 :: r2) :
    renderChars (CComp.ckey k :: (ns.map CComp.cidx ++ r))
      = (k ++ renderIdxTail ns)
        ++ (if r.isEmpty then [] else '.' :: renderChars r) := by
  rw [renderChars_key_cons, List.map_append, List.flatten_append, map_renderCompN_idxs]
  rcases hr with h1 | ⟨k2, r2, h2⟩
  · subst h1
    simp
  · subst h2
    simp only [List.isEmpty_cons, if_neg]
    rw [renderChars_key_cons]
    simp [renderCompN]

/- the per-part dot-freeness -/

theorem part_no_dot (k : List Char) (ns : List Int) (hdot : '.' ∉ k) :
    '.' ∉ k ++ renderIdxTail ns := by
  intro hmem
  rcases List.mem_append.mp hmem with h1 | h2
  · exact hdot h1
  · rcases renderIdxTail_chars ns '.' h2 with h3 | h3 | h3 | h3
    · simp at h3
    · simp at h3
    · simp at h3
    · revert h3; decide

/- the main induction -/

theorem foldlM_parsePart_render (n : Nat) :
    ∀ (p : List CComp), p.length ≤ n →
      (∀ c ∈ p, wfCComp c) → (∃ k rest, p = CComp.ckey k :: rest) →
      ∀ (steps : List CComp),
        (pySplit '.' (renderChars p)).foldlM parsePart steps = Except.ok (steps ++ p) := by
  induction n with
  | zero =>
    intro p hlen hwf hhead steps
    obtain ⟨k, rest, hp⟩ := hhead
    subst hp
    simp at hlen
  | succ n ih =>
    intro p hlen hwf hhead steps
    obtain ⟨k, rest, hp⟩ := hhead
    subst hp
    have hk : goodKeyChars k := hwf (CComp.ckey k) (by simp)
    have hrest : rest = (takeIdxs rest).1.map CComp.cidx ++ (takeIdxs rest).2 :=
      takeIdxs_spec rest
    have hr := takeIdxs_head rest
    have hdecomp := renderChars_decomp k (takeIdxs rest).1 (takeIdxs rest).2 hr
    have hnodot : '.' ∉ k ++ renderIdxTail (takeIdxs rest).1 := part_no_dot k _ hk.2.1
    have hsplit2 : CComp.ckey k :: rest
        = CComp.ckey k :: ((takeIdxs rest).1.map CComp.cidx ++ (takeIdxs rest).2) := by
      rw [← hrest]
    rcases hr with hre | ⟨k2, r2, hrk⟩
    · rw [hsplit2, hdecomp, hre]
      simp only [List.isEmpty_nil, if_pos, List.append_nil]
      rw [pySplit_no_sep '.' _ hnodot]
      show (parsePart steps (k ++ renderIdxTail (takeIdxs rest).1) >>= fun s2 =>
        ([] : List (List Char)).foldlM parsePart s2) = _
      rw [parsePart_render k (takeIdxs rest).1 steps hk]
      simp
    · rw [hsplit2, hdecomp]
      have hif : (if (takeIdxs rest).2.isEmpty then ([] : List Char)
          else '.' :: renderChars (takeIdxs rest).2)
          = '.' :: renderChars (takeIdxs rest).2 := by
        rw [hrk]
        simp
      rw [hif, pySplit_append '.' _ _ hnodot]
      show (parsePart steps (k ++ renderIdxTail (takeIdxs rest).1) >>= fun s2 =>
        (pySplit '.' (renderChars (takeIdxs rest).2)).foldlM parsePart s2) = _
      rw [parsePart_render k (takeIdxs rest).1 steps hk]
      show (pySplit '.' (renderChars (takeIdxs rest).2)).foldlM parsePart
        (steps ++ CComp.ckey k :: (takeIdxs rest).1.map CComp.cidx) = _
      have hlen2 : (takeIdxs rest).2.length ≤ n := by
        have h1 := takeIdxs_len rest
        simp at hlen
        omega
      have hwf2 : ∀ c ∈ (takeIdxs rest).2, wfCComp c := by
        intro c hc
        exact hwf c (List.mem_cons_of_mem _ (takeIdxs_sub rest c hc))
      rw [ih (takeIdxs rest).2 hlen2 hwf2 ⟨k2, r2, hrk⟩
        (steps ++ CComp.ckey k :: (takeIdxs rest).1.map CComp.cidx)]
      simp

/- top-level round trips -/

theorem parsePathChars_renderChars (p : List CComp) (h : wfCPath p) :
    parsePathChars (renderChars p) = Except.ok p := by
  obtain ⟨hwf, hhead⟩ := h
  cases p with
  | nil => rfl
  | cons c rest =>
    cases c with
    | cidx m => simp [isIdxHead] at hhead
    | ckey k =>
      have hk : goodKeyChars k := hwf (CComp.ckey k) (by simp)
      have hne : renderChars (CComp.ckey k :: rest) ≠ [] := by
        rw [renderChars_key_cons]
        intro he
        rcases List.append_eq_nil.mp he with ⟨h1, _⟩
        exact hk.1 h1
      rw [parsePathChars, if_neg (by simpa using hne)]
      have := foldlM_parsePart_render (CComp.ckey k :: rest).length
        (CComp.ckey k :: rest) (le_refl _) hwf ⟨k, rest, rfl⟩ []
      rw [this]
      simp

theorem compOfC_cOfComp (x : PathComp) : compOfC (cOfComp x) = x := by
  cases x <;> rfl

/-- C8 counterexample: the path whose single component is the string
`"a.b"` is well-formed by the claim's definition (a non-empty string), but
parsing its rendered form yields the two-component path `a`, `b`, not the
original. -/
theorem path_roundtrip_counterexample :
    TreePath.parse (TreePath.render [PathComp.key "a.b"])
        = Except.ok [PathComp.key "a", PathComp.key "b"] ∧
      [PathComp.key "a", PathComp.key "b"] ≠ [PathComp.key "a.b"] := by
  refine ⟨rfl, by simp⟩

/-- C8 amended: the parse/render round-trip holds for paths whose key
components are non-empty and free of `.` and `[`, and whose first component
is a key; on such paths `parse (render p) = p`, and rendering the parse of
such a canonical string reproduces it exactly. -/
theorem treePath_parse_render_roundtrip (p : List PathComp)
    (h : wfCPath (p.map cOfComp)) :
    TreePath.parse (TreePath.render p) = Except.ok p ∧
      (TreePath.parse (TreePath.render p)).map TreePath.render
        = Except.ok (TreePath.render p) := by
  have h1 : TreePath.parse (TreePath.render p) = Except.ok p := by
    show (parsePathChars (String.mk (renderChars (p.map cOfComp))).data).map
      (List.map compOfC) = Except.ok p
    rw [show (String.mk (renderChars (p.map cOfComp))).data
        = renderChars (p.map cOfComp) from rfl]
    rw [parsePathChars_renderChars (p.map cOfComp) h]
    show Except.ok ((p.map cOfComp).map compOfC) = Except.ok p
    rw [List.map_map]
    congr 1
    have : compOfC ∘ cOfComp = id := funext compOfC_cOfComp
    rw [this, List.map_id]
  refine ⟨h1, ?_⟩
  rw [h1]
  rfl

theorem treePath_parse_render_roundtrip_witness :
    TreePath.parse (TreePath.render [PathComp.key "a", PathComp.idx 0, PathComp.key "b"])
        = Except.ok [PathComp.key "a", PathComp.idx 0, PathComp.key "b"] ∧
      (TreePath.parse (TreePath.render
          [PathComp.key "a", PathComp.idx 0, PathComp.key "b"])).map TreePath.render
        = Except.ok (TreePath.render
            [PathComp.key "a", PathComp.idx 0, PathComp.key "b"]) :=
  treePath_parse_render_roundtrip [PathComp.key "a", PathComp.idx 0, PathComp.key "b"]
    (by constructor
        · intro c hc
          fin_cases hc <;> decide
        · rfl)
